import Mathlib

/-!
Verification development for the omni_transcriber pipeline.

Python strings are modelled as `List Char` (a Python `str` is a sequence of
code points).  Each definition below is a shallow embedding of the function of
the same (or closely related) name in the repository source; the file the
definition comes from is named in its doc comment.
-/

set_option maxRecDepth 10000

/-- A Python string: a sequence of Unicode code points. -/
abbrev PyStr := List Char

namespace Py

/-- Python `str.lower()` (modelled with `Char.toLower`, which lower-cases the
ASCII range; all hostnames and identifiers involved are ASCII). -/
def lower (s : PyStr) : PyStr := s.map Char.toLower

/-- Characters removed by Python `str.strip()` with no argument
(Python's whitespace set; the ASCII portion plus the common Unicode spaces). -/
def isPySpace (c : Char) : Bool :=
  c = ' ' || c = '\t' || c = '\n' || c = '\r' || c = '\x0b' || c = '\x0c' ||
  (0x1c ≤ c.toNat && c.toNat ≤ 0x1f) || c.toNat = 0x85 || c.toNat = 0xa0 ||
  c.toNat = 0x1680 || (0x2000 ≤ c.toNat && c.toNat ≤ 0x200a) ||
  c.toNat = 0x2028 || c.toNat = 0x2029 || c.toNat = 0x202f ||
  c.toNat = 0x205f || c.toNat = 0x3000

/-- Python `str.strip()`. -/
def strip (s : PyStr) : PyStr :=
  ((s.dropWhile isPySpace).reverse.dropWhile isPySpace).reverse

/-- `needle.isPrefixOf hay` for char lists, Python `str.startswith`. -/
def startsWith (prefixStr s : PyStr) : Bool :=
  match prefixStr, s with
  | [], _ => true
  | _ :: _, [] => false
  | p :: ps, c :: cs => p = c && startsWith ps cs

/-- Python `str.endswith`. -/
def endsWith (suffixStr s : PyStr) : Bool :=
  startsWith suffixStr.reverse s.reverse

/-- Python `needle in hay` substring containment. -/
def containsSub (needle s : PyStr) : Bool :=
  match s with
  | [] => startsWith needle []
  | _ :: cs => startsWith needle s || containsSub needle cs

/-- Split at the FIRST occurrence of `c`: `none` when `c` is absent,
otherwise `(before, after)` (neither part contains that occurrence). -/
def splitFirst (c : Char) (s : PyStr) : Option (PyStr × PyStr) :=
  match s with
  | [] => none
  | d :: ds =>
    if d = c then some ([], ds)
    else match splitFirst c ds with
      | none => none
      | some (a, b) => some (d :: a, b)

/-- Python `str.rpartition(sep)[2]` for a single-char separator:
everything after the LAST occurrence, or the whole string when absent. -/
def afterLast (c : Char) (s : PyStr) : PyStr :=
  ((s.reverse.takeWhile (· ≠ c))).reverse

end Py

/-! ## `urllib.parse` model (`urlsplit`, the `hostname` property, `parse_qs`) -/

namespace UrlLib

/-- Result of Python `urllib.parse.urlsplit` (the fields `urlparse` adds are
not used by the repository). -/
structure UrlSplit where
  scheme : PyStr
  netloc : PyStr
  path : PyStr
  query : PyStr
  fragment : PyStr
deriving Repr, DecidableEq

/-- `urllib.parse` removes every tab, CR and LF anywhere in the URL
(`_UNSAFE_URL_BYTES_TO_REMOVE`). -/
def removeUnsafeBytes (s : PyStr) : PyStr :=
  s.filter (fun c => ¬ (c = '\t' || c = '\r' || c = '\n'))

/-- The characters allowed in a URL scheme (`scheme_chars` in `urllib.parse`). -/
def isSchemeChar (c : Char) : Bool :=
  c.isAlpha || c.isDigit || c = '+' || c = '-' || c = '.'

/-- Scheme splitting step of `urlsplit`: the text before the first `':'` is a
scheme when it is non-empty, begins with an ASCII letter and consists of
scheme characters; otherwise the URL is left intact. -/
def splitScheme (url : PyStr) : PyStr × PyStr :=
  match Py.splitFirst ':' url with
  | none => ([], url)
  | some (before, after) =>
    match before with
    | [] => ([], url)
    | c0 :: _ =>
      if c0.isAlpha && before.all isSchemeChar then (Py.lower before, after)
      else ([], url)

/-- Netloc splitting step of `urlsplit`: when the remainder begins with `//`,
the netloc runs up to the next `/`, `?` or `#` (`_splitnetloc`). -/
def splitNetloc (rest : PyStr) : PyStr × PyStr :=
  match rest with
  | '/' :: '/' :: body =>
    let nl := body.takeWhile (fun c => ¬ (c = '/' || c = '?' || c = '#'))
    (nl, body.drop nl.length)
  | _ => ([], rest)

/-- Python `urllib.parse.urlsplit` (fragments allowed, no default scheme). -/
def urlsplit (url0 : PyStr) : UrlSplit :=
  let url1 := removeUnsafeBytes url0
  let (scheme, rest1) := splitScheme url1
  let (netloc, rest2) := splitNetloc rest1
  let (rest3, fragment) :=
    match Py.splitFirst '#' rest2 with
    | none => (rest2, ([] : PyStr))
    | some (a, b) => (a, b)
  let (path, query) :=
    match Py.splitFirst '?' rest3 with
    | none => (rest3, ([] : PyStr))
    | some (a, b) => (a, b)
  ⟨scheme, netloc, path, query, fragment⟩

/-- The `hostname` property of a parse result, already coalesced with the
`or ""` the repository applies: take the part of the netloc after the last
`'@'`; inside `[...]` brackets for IPv6, else up to the first `':'`;
lower-case the part before any `'%'` zone marker. -/
def hostname (netloc : PyStr) : PyStr :=
  let hostinfo := Py.afterLast '@' netloc
  let host :=
    match Py.splitFirst '[' hostinfo with
    | some (_, bracketed) =>
      match Py.splitFirst ']' bracketed with
      | some (h, _) => h
      | none => bracketed
    | none =>
      match Py.splitFirst ':' hostinfo with
      | some (h, _) => h
      | none => hostinfo
  match Py.splitFirst '%' host with
  | some (pre, zone) => Py.lower pre ++ '%' :: zone
  | none => Py.lower host

/-- Hex digit value, as accepted by `urllib.parse.unquote`. -/
def hexVal (c : Char) : Option Nat :=
  if '0' ≤ c ∧ c ≤ '9' then some (c.toNat - '0'.toNat)
  else if 'a' ≤ c ∧ c ≤ 'f' then some (c.toNat - 'a'.toNat + 10)
  else if 'A' ≤ c ∧ c ≤ 'F' then some (c.toNat - 'A'.toNat + 10)
  else none

/-- Percent-decoding (`urllib.parse.unquote`); a `%` not followed by two hex
digits is kept literally.  (The UTF-8 re-decode of multi-byte escapes is
modelled per byte; the identifiers the repository extracts are ASCII.) -/
def unquote (s : PyStr) : PyStr :=
  match s with
  | '%' :: h1 :: h2 :: rest =>
    match hexVal h1, hexVal h2 with
    | some v1, some v2 => Char.ofNat (16 * v1 + v2) :: unquote rest
    | _, _ => '%' :: unquote (h1 :: h2 :: rest)
  | c :: rest => c :: unquote rest
  | [] => []

/-- `unquote_plus` as used inside `parse_qsl`: `'+'` becomes a space, then
percent-decoding. -/
def unquotePlus (s : PyStr) : PyStr :=
  unquote (s.map (fun c => if c = '+' then ' ' else c))

/-- Split a query string on `'&'` (the separator `parse_qsl` uses);
`"".split(sep)` is `[""]`. -/
def splitAmp : PyStr → List PyStr
  | [] => [[]]
  | c :: rest =>
    if c = '&' then [] :: splitAmp rest
    else
      match splitAmp rest with
      | [] => [[c]]
      | g :: gs => (c :: g) :: gs

/-- `urllib.parse.parse_qsl` with the defaults the repository uses
(`keep_blank_values=False`): empty fields are skipped, a field with no `'='`
or with an empty value is dropped, names and values are `unquote_plus`-ed. -/
def parseQsl (query : PyStr) : List (PyStr × PyStr) :=
  (splitAmp query).foldr
    (fun field acc =>
      if field = [] then acc
      else match Py.splitFirst '=' field with
        | none => acc
        | some (name, value) =>
          if value = [] then acc
          else (unquotePlus name, unquotePlus value) :: acc)
    []

/-- `parse_qs(query).get(name, [])`: the values bound to `name`, in order. -/
def qsGet (name : PyStr) (query : PyStr) : List PyStr :=
  ((parseQsl query).filter (fun p => p.1 = name)).map (·.2)

end UrlLib

/-! ## `src/utils/url_parser.py` -/

namespace UrlParser

/-- The class `[a-zA-Z0-9_-]` used for YouTube video ids. -/
def isIdChar (c : Char) : Bool :=
  c.isAlpha || c.isDigit || c = '_' || c = '-'

/-- `re.search(lit + "([a-zA-Z0-9_-]{11})", s)`: scan left to right for the
literal followed by exactly 11 id characters; on a failed attempt the scan
advances one character. -/
def searchSeg11 (lit : PyStr) : PyStr → Option PyStr
  | [] => none
  | c :: rest =>
    if Py.startsWith lit (c :: rest) then
      let cand := ((c :: rest).drop lit.length).take 11
      if cand.length = 11 && cand.all isIdChar then some cand
      else searchSeg11 lit rest
    else searchSeg11 lit rest

/-- `YOUTUBE_DOMAINS` (a frozenset in the source; iteration order is
irrelevant to the disjunction below). -/
def YOUTUBE_DOMAINS : List PyStr :=
  ["youtube.com".data, "youtu.be".data, "youtube-nocookie.com".data]

/-- `BILIBILI_DOMAINS`. -/
def BILIBILI_DOMAINS : List PyStr :=
  ["bilibili.com".data, "b23.tv".data]

/-- `APPLE_PODCASTS_DOMAINS`. -/
def APPLE_PODCASTS_DOMAINS : List PyStr :=
  ["podcasts.apple.com".data]

/-- `_is_youtube_host`: empty hostnames are rejected; otherwise the lowered
hostname must equal an allowed domain or end with `"." + domain`. -/
def isYoutubeHost (hostname : PyStr) : Bool :=
  if hostname = [] then false
  else
    let h := Py.lower hostname
    YOUTUBE_DOMAINS.any (fun d => h = d || Py.endsWith ('.' :: d) h)

/-- `_is_bilibili_host`. -/
def isBilibiliHost (hostname : PyStr) : Bool :=
  if hostname = [] then false
  else
    let h := Py.lower hostname
    BILIBILI_DOMAINS.any (fun d => h = d || Py.endsWith ('.' :: d) h)

/-- `_is_apple_podcasts_host`. -/
def isApplePodcastsHost (hostname : PyStr) : Bool :=
  if hostname = [] then false
  else
    let h := Py.lower hostname
    APPLE_PODCASTS_DOMAINS.any (fun d => h = d || Py.endsWith ('.' :: d) h)

/-- `_is_valid_video_id`: length 11 over `[a-zA-Z0-9_-]`. -/
def isValidVideoId (v : PyStr) : Bool :=
  if v = [] || v.length ≠ 11 then false
  else v.all isIdChar

/-- The lowered hostname the classifier computes for an input:
`(urlparse(url.strip()).hostname or "").lower()`. -/
def observedHost (url : PyStr) : PyStr :=
  Py.lower (UrlLib.hostname (UrlLib.urlsplit (Py.strip url)).netloc)

/-- `extract_video_id` from `url_parser.py`. -/
def extract_video_id (url : PyStr) : Option PyStr :=
  if url = [] then none
  else
    let u := Py.strip url
    let parsed := UrlLib.urlsplit u
    let host := Py.lower (UrlLib.hostname parsed.netloc)
    if ¬ isYoutubeHost host then none
    else
      let fromYoutuBe : Option PyStr :=
        if host = "youtu.be".data || Py.endsWith ".youtu.be".data host then
          let vid := (parsed.path.dropWhile (· = '/')).takeWhile (· ≠ '/')
          if vid ≠ [] && isValidVideoId vid then some vid else none
        else none
      match fromYoutuBe with
      | some v => some v
      | none =>
        if Py.endsWith "youtube.com".data host ||
            Py.endsWith "youtube-nocookie.com".data host then
          let path := parsed.path
          let fromWatch : Option PyStr :=
            if path = "/watch".data || Py.startsWith "/watch".data path then
              match UrlLib.qsGet "v".data parsed.query with
              | [] => none
              | v0 :: _ => if isValidVideoId v0 then some v0 else none
            else none
          let fromShorts : Option PyStr :=
            if Py.containsSub "/shorts/".data path then
              searchSeg11 "/shorts/".data path
            else none
          let fromEmbed : Option PyStr :=
            if Py.containsSub "/embed/".data path then
              searchSeg11 "/embed/".data path
            else none
          let fromV : Option PyStr :=
            if Py.containsSub "/v/".data path then
              searchSeg11 "/v/".data path
            else none
          let fromLive : Option PyStr :=
            if Py.containsSub "/live/".data path then
              searchSeg11 "/live/".data path
            else none
          fromWatch <|> fromShorts <|> fromEmbed <|> fromV <|> fromLive
        else none

/-- `re.search(r"/video/(BV[a-zA-Z0-9]+|av\d+)", path)`: at each position the
literal `/video/` must be followed by `BV` and a maximal non-empty
alphanumeric run, or by `av` and a maximal non-empty digit run. -/
def searchBiliVideo : PyStr → Option PyStr
  | [] => none
  | c :: rest =>
    if Py.startsWith "/video/".data (c :: rest) then
      let after := (c :: rest).drop 7
      if Py.startsWith "BV".data after ∧ ((after.drop 2).takeWhile Char.isAlphanum) ≠ [] then
        some ('B' :: 'V' :: (after.drop 2).takeWhile Char.isAlphanum)
      else if Py.startsWith "av".data after ∧ ((after.drop 2).takeWhile Char.isDigit) ≠ [] then
        some ('a' :: 'v' :: (after.drop 2).takeWhile Char.isDigit)
      else searchBiliVideo rest
    else searchBiliVideo rest

/-- `extract_bilibili_video_id` from `url_parser.py`. -/
def extract_bilibili_video_id (url : PyStr) : Option PyStr :=
  if url = [] then none
  else
    let u := Py.strip url
    let parsed := UrlLib.urlsplit u
    let host := Py.lower (UrlLib.hostname parsed.netloc)
    if ¬ isBilibiliHost host then none
    else if host = "b23.tv".data || Py.endsWith ".b23.tv".data host then
      let p := (parsed.path.dropWhile (· = '/')).takeWhile (· ≠ '/')
      if p ≠ [] then some p else none
    else if Py.endsWith "bilibili.com".data host then
      if Py.containsSub "/video/".data parsed.path then searchBiliVideo parsed.path
      else none
    else none

/-- `re.search(r"/id(\d+)", path)`: the literal `/id` followed by a maximal
non-empty digit run. -/
def searchAppleId : PyStr → Option PyStr
  | [] => none
  | c :: rest =>
    if Py.startsWith "/id".data (c :: rest) then
      let digits := ((c :: rest).drop 3).takeWhile Char.isDigit
      if digits ≠ [] then some digits else searchAppleId rest
    else searchAppleId rest

/-- `extract_apple_podcasts_id` from `url_parser.py`. -/
def extract_apple_podcasts_id (url : PyStr) : Option PyStr :=
  if url = [] then none
  else
    let u := Py.strip url
    let parsed := UrlLib.urlsplit u
    let host := Py.lower (UrlLib.hostname parsed.netloc)
    if ¬ isApplePodcastsHost host then none
    else if ¬ Py.containsSub "/podcast/".data parsed.path then none
    else
      match searchAppleId parsed.path with
      | none => none
      | some pid =>
        match UrlLib.qsGet "i".data parsed.query with
        | [] => some pid
        | e0 :: _ => some (pid ++ '_' :: e0)

/-- `is_youtube_url`. -/
def is_youtube_url (text : PyStr) : Bool := (extract_video_id text).isSome

/-- `is_bilibili_url`. -/
def is_bilibili_url (text : PyStr) : Bool := (extract_bilibili_video_id text).isSome

/-- `is_apple_podcasts_url`. -/
def is_apple_podcasts_url (text : PyStr) : Bool := (extract_apple_podcasts_id text).isSome

/-- `get_url_platform`. -/
def get_url_platform (text : PyStr) : Option PyStr :=
  if is_youtube_url text then some "youtube".data
  else if is_bilibili_url text then some "bilibili".data
  else if is_apple_podcasts_url text then some "apple_podcasts".data
  else none

end UrlParser

/-! ## `src/services/pdf_generator.py`: `_safe_url_fetcher` -/

namespace PdfGenerator

/-- What `_safe_url_fetcher` does with a URL: either it delegates the fetch to
WeasyPrint's `default_url_fetcher` (only reached for `data:` URIs), or it
returns the inert dict `{"string": b"", "mime_type": "text/plain"}` without
touching the resource. -/
inductive FetchResult where
  /-- `return default_url_fetcher(url, timeout, ssl_context)` -/
  | delegated (url : PyStr)
  /-- `return {"string": b"", "mime_type": "text/plain"}` — nothing fetched. -/
  | blockedEmpty
deriving DecidableEq, Repr

/-- `_safe_url_fetcher`: only URLs starting with `"data:"` are fetched;
everything else yields empty inline content.  `_generate_pdf_sync` installs
this function as WeasyPrint's `url_fetcher`, so it mediates every resource
reference during rendering. -/
def safe_url_fetcher (url : PyStr) : FetchResult :=
  if Py.startsWith "data:".data url then .delegated url
  else .blockedEmpty

end PdfGenerator

/-! ## `src/bot/handlers.py`: `sanitize_filename` -/

namespace Handlers

/-- The characters kept by `SAFE_FILENAME_PATTERN = [^\w一-鿿\-.]`.
The `\w` class (Unicode word characters) is abstracted as the parameter `w`;
every concrete claim below holds for any `w` agreeing with Python on the
characters it mentions. -/
def isSafeChar (w : Char → Bool) (c : Char) : Bool :=
  w c || (0x4e00 ≤ c.toNat && c.toNat ≤ 0x9fff) || c = '-' || c = '.'

/-- The ASCII portion of Python's `\w` class, used to instantiate `w` on the
concrete (all-ASCII) inputs below. -/
def asciiWordChar (c : Char) : Bool :=
  c.isAlphanum || c = '_'

/-- `os.path.basename` (POSIX): everything after the last `'/'`. -/
def basename (p : PyStr) : PyStr := Py.afterLast '/' p

/-- `os.path.splitext` on a separator-free name (the repository always applies
it after `basename`): split at the last `'.'`, except that a name whose
characters before that dot are all dots keeps its "extension" (leading-dot
files like `.bashrc` have no extension). -/
def splitext (p : PyStr) : PyStr × PyStr :=
  let revTail := p.reverse.takeWhile (· ≠ '.')
  if revTail.length = p.length then (p, [])
  else
    let base := (p.reverse.drop (revTail.length + 1)).reverse
    let ext := '.' :: revTail.reverse
    if base.all (· = '.') then (p, []) else (base, ext)

/-- `SAFE_FILENAME_PATTERN.sub("_", s)`. -/
def substUnsafe (w : Char → Bool) (s : PyStr) : PyStr :=
  s.map (fun c => if isSafeChar w c then c else '_')

/-- `sanitize_filename` from `handlers.py`. -/
def sanitize_filename (w : Char → Bool) (filename : PyStr)
    (max_length : Nat := 50) : PyStr :=
  let fname := basename filename
  let (name0, ext0) := splitext fname
  let name1 := substUnsafe w name0
  let ext1 := substUnsafe w ext0
  let name2 := if name1.length > max_length then name1.take max_length else name1
  let name3 := if name2 = [] then "file".data else name2
  name3 ++ ext1

end Handlers

/-! ## `src/utils/settings_store.py` -/

namespace SettingsStore

/-- The in-memory `_settings` mapping: chat id → (key → value), modelled as
nested association lists (first binding wins, like a dict). -/
abbrev Mem := List (Int × List (String × String))

/-- `d[key] = value` on an inner dict. -/
def assocSet (l : List (String × String)) (k v : String) : List (String × String) :=
  match l with
  | [] => [(k, v)]
  | (k', v') :: rest => if k' = k then (k, v) :: rest else (k', v') :: assocSet rest k v

/-- Inner dict lookup. -/
def assocGet (l : List (String × String)) (k : String) : Option String :=
  match l with
  | [] => none
  | (k', v') :: rest => if k' = k then some v' else assocGet rest k

/-- `_settings.get(chat_id)`. -/
def memGet (m : Mem) (cid : Int) : Option (List (String × String)) :=
  match m with
  | [] => none
  | (c, kvs) :: rest => if c = cid then some kvs else memGet rest cid

/-- The in-memory mutation `set` performs:
`if chat_id not in _settings: _settings[chat_id] = {}` then
`_settings[chat_id][key] = value`. -/
def memSet (m : Mem) (cid : Int) (k v : String) : Mem :=
  match m with
  | [] => [(cid, [(k, v)])]
  | (c, kvs) :: rest =>
    if c = cid then (c, assocSet kvs k v) :: rest else (c, kvs) :: memSet rest cid k v

/-- The bytes `json.dump(_settings, ...)` writes: a deterministic rendering of
the ENTIRE mapping.  The exact JSON layout is irrelevant to every claim; what
matters is that it is a pure function of the whole in-memory state. -/
def serializeSettings (m : Mem) : PyStr :=
  '{' :: (m.foldr
    (fun e acc =>
      (toString e.1).data ++ ':' ::
        '{' :: (e.2.foldr (fun kv acc2 => kv.1.data ++ ':' :: kv.2.data ++ ',' :: acc2) (']' :: acc))
      ) [']'])

/-- The durable side of the store: the settings file and any leftover
temporary file. -/
structure FS where
  target : PyStr
  tmp : Option PyStr
deriving DecidableEq, Repr

/-- Where, if anywhere, the durable rewrite inside `_save` raises. -/
inductive FailPoint where
  | noFail
  /-- `tempfile.mkstemp` raises: no temp file was created. -/
  | atMkstemp
  /-- `json.dump`/`os.fdopen` raises: the inner `except` unlinks the temp file
  and re-raises. -/
  | atWrite
  /-- `os.replace` raises: the inner `except` unlinks the temp file and
  re-raises. -/
  | atReplace
deriving DecidableEq, Repr

/-- The body of `_save`'s outer `try`, step by step: create a temp file in the
same directory, write the full serialization to it, atomically rename it over
the target.  Returns the filesystem afterwards and whether an exception
escaped the inner handling. -/
def saveBody (mem : Mem) (fs : FS) (fp : FailPoint) : FS × Bool :=
  if fp = .atMkstemp then (fs, true)
  else
    let fs1 : FS := { fs with tmp := some [] }
    if fp = .atWrite then ({ fs1 with tmp := none }, true)
    else
      let fs2 : FS := { fs1 with tmp := some (serializeSettings mem) }
      if fp = .atReplace then ({ fs2 with tmp := none }, true)
      else ({ target := serializeSettings mem, tmp := none }, false)

/-- `_save`: the outer `except Exception` only logs, so the function is total
and never propagates an error; the filesystem is whatever the try body left. -/
def save (mem : Mem) (fs : FS) (fp : FailPoint) : FS :=
  (saveBody mem fs fp).1

/-- A settings store: in-memory mapping plus durable state. -/
structure Store where
  mem : Mem
  fs : FS
deriving DecidableEq, Repr

/-- `set(chat_id, key, value)` under the lock: mutate the in-memory mapping,
then run `_save` (which swallows any failure). -/
def set (st : Store) (cid : Int) (k v : String) (fp : FailPoint) : Store :=
  let mem' := memSet st.mem cid k v
  { mem := mem', fs := save mem' st.fs fp }

/-- `get(chat_id, key, default)` (the specific-key form). -/
def get (st : Store) (cid : Int) (k : String) (default : String) : String :=
  match memGet st.mem cid with
  | none => default
  | some kvs =>
    match assocGet kvs k with
    | none => default
    | some v => v

end SettingsStore

/-! ## `src/utils/retry.py`: `with_retry` -/

namespace Retry

/-- Observable outcome of `with_retry`: the returned value or the final
aggregate raise, together with how many times the operation was invoked and
the sleeps performed between attempts (in ms). -/
inductive RetryOutcome (E T : Type) where
  | success (value : T) (calls : Nat) (delays : List Nat)
  /-- `raise Exception(f"{context} failed after {max_attempts} attempts: {last_error}")` -/
  | exhausted (lastError : Option E) (calls : Nat) (delays : List Nat)
deriving DecidableEq, Repr

/-- The `for attempt in range(1, max_attempts + 1)` loop, with `remaining`
attempts left after the current one.  On failure with attempts remaining the
loop sleeps `base_delay_ms * 2 ** (attempt - 1)` ms and retries. -/
def retryAux {E T : Type} (fn : Nat → Except E T) (baseDelayMs attempt : Nat) :
    Nat → RetryOutcome E T
  | 0 =>
    match fn attempt with
    | .ok v => .success v 1 []
    | .error e => .exhausted (some e) 1 []
  | r + 1 =>
    match fn attempt with
    | .ok v => .success v 1 []
    | .error _ =>
      let d := baseDelayMs * 2 ^ (attempt - 1)
      match retryAux fn baseDelayMs (attempt + 1) r with
      | .success v c ds => .success v (c + 1) (d :: ds)
      | .exhausted le c ds => .exhausted le (c + 1) (d :: ds)

/-- `with_retry(fn, max_attempts, base_delay_ms, context)`; `fn k` is the
outcome of the k-th invocation of the wrapped operation.  With
`max_attempts = 0` the loop body never runs and the aggregate error wraps
`last_error = None`. -/
def with_retry {E T : Type} (fn : Nat → Except E T)
    (maxAttempts : Nat := 3) (baseDelayMs : Nat := 1000) : RetryOutcome E T :=
  if maxAttempts = 0 then .exhausted none 0 []
  else retryAux fn baseDelayMs 1 (maxAttempts - 1)

end Retry

/-! ## `src/services/transcriber.py` / `src/services/editor.py`:
empty-result validation and repetition cleanup -/

namespace Transcriber

/-- Errors an individual transcribe/reformat attempt can raise inside the
retry wrapper. -/
inductive CallError where
  /-- the backend call itself raised -/
  | remoteFailure
  /-- `raise ValueError("... returned empty result.")` -/
  | emptyResult
deriving DecidableEq, Repr

/-- `if not text or text.strip() == "":` — `response.text` may be `None`
(modelled as `none`) or a string. -/
def isBlankResponse (t : Option PyStr) : Bool :=
  match t with
  | none => true
  | some s => s = [] || Py.strip s = []

/-- The response validation at the end of `_transcribe_audio`: a missing,
empty or whitespace-only text raises `ValueError`, otherwise the text is
returned. -/
def validateTranscription (t : Option PyStr) : Except CallError PyStr :=
  match t with
  | none => .error .emptyResult
  | some s => if s = [] || Py.strip s = [] then .error .emptyResult else .ok s

/-- One `_transcribe_audio` attempt as seen by `with_retry`: the backend
either raises (`.error ()`) or returns a response text, which is then
validated. -/
def transcribeAttempt (backend : Nat → Except Unit (Option PyStr)) (k : Nat) :
    Except CallError PyStr :=
  match backend k with
  | .error () => .error .remoteFailure
  | .ok t => validateTranscription t

/-- The identical response validation at the end of `_edit_transcript` in
`editor.py`. -/
def validateEditing (t : Option PyStr) : Except CallError PyStr :=
  match t with
  | none => .error .emptyResult
  | some s => if s = [] || Py.strip s = [] then .error .emptyResult else .ok s

/-- One `_edit_transcript` attempt as seen by `with_retry`. -/
def editAttempt (backend : Nat → Except Unit (Option PyStr)) (k : Nat) :
    Except CallError PyStr :=
  match backend k with
  | .error () => .error .remoteFailure
  | .ok t => validateEditing t

/-- Run-length grouping helper: current char, its count so far, rest. -/
def runsAux (c : Char) (n : Nat) : PyStr → List (Char × Nat)
  | [] => [(c, n)]
  | d :: rest => if d = c then runsAux c (n + 1) rest else (c, n) :: runsAux d 1 rest

/-- Run-length encoding of a string: maximal runs with their lengths. -/
def runs : PyStr → List (Char × Nat)
  | [] => []
  | c :: rest => runsAux c 1 rest

/-- Inverse of `runs`: concatenate each run back out. -/
def unruns (l : List (Char × Nat)) : PyStr :=
  l.foldr (fun p acc => List.replicate p.2 p.1 ++ acc) []

/-- Effect of `re.sub(r"(.)\1{max_repeats,}", replacer, text)` on the run
list: a maximal run of `max_repeats + 1` or more copies of a non-newline
character (`.` does not match `\n`) is replaced by a single copy. -/
def collapseRuns (maxRepeats : Nat) (l : List (Char × Nat)) : List (Char × Nat) :=
  l.map (fun p => (p.1, if p.1 ≠ '\n' ∧ maxRepeats < p.2 then 1 else p.2))

/-- `cleanup_repetitive_characters(text, max_repeats=10)` from
`transcriber.py`: the substitution scans left to right, each leftmost match
is the whole maximal run (the quantifier is greedy), and the replacement is
the single repeated character; `transcribe` applies it to the final text. -/
def cleanup_repetitive_characters (text : PyStr) (maxRepeats : Nat := 10) : PyStr :=
  unruns (collapseRuns maxRepeats (runs text))

/-- Detector used to state the claim: scan the string, counting consecutive
equal characters; report `true` when some non-newline character occurs more
than 10 times in a row. -/
def hasLongRunAux (prev : Char) (count : Nat) : PyStr → Bool
  | [] => false
  | c :: rest =>
    if c = prev then
      if 10 < count + 1 && c ≠ '\n' then true
      else hasLongRunAux c (count + 1) rest
    else hasLongRunAux c 1 rest

/-- `true` iff the string contains 11 or more consecutive occurrences of the
same non-newline character. -/
def hasLongRun : PyStr → Bool
  | [] => false
  | c :: rest => hasLongRunAux c 1 rest

end Transcriber

/-! ## `src/bot/handlers.py`: `_process_video_url` pipeline shape -/

namespace Pipeline

/-- The externally observable operations of one `_process_video_url` run. -/
inductive Stage where
  /-- `download_audio(url, request_temp_dir)` -/
  | download
  /-- `transcribe(audio_path, ...)` -/
  | transcribe
  /-- `edit(raw_transcript, ...)` -/
  | edit
  /-- writing `transcript.md` into the scratch directory -/
  | writeMarkdown
  /-- `generate_pdf(..., transcript.pdf)` -/
  | generatePdf
  /-- `upload_to_rclone` + sending the documents -/
  | deliver
  /-- `shutil.rmtree(request_temp_dir)` in the `finally:` block -/
  | removeScratch
deriving DecidableEq, Repr

/-- Outcomes of the fallible external capabilities, injected as data: each is
the result the corresponding call would produce (after its own retries). -/
structure StageOutcomes where
  fetch : Except PyStr PyStr
  transcribeResult : Except PyStr PyStr
  editResult : Except PyStr PyStr
  renderResult : Except PyStr Unit
deriving Repr

/-- The `try`/`finally` body of `_process_video_url`: stages run in sequence,
the first failure aborts the remaining stages, and the `finally:` block always
removes the per-request scratch directory last. -/
def processVideoUrl (o : StageOutcomes) : List Stage × Except PyStr Unit :=
  let (core, res) :=
    match o.fetch with
    | .error e => ([Stage.download], Except.error e)
    | .ok _ =>
      match o.transcribeResult with
      | .error e => ([Stage.download, Stage.transcribe], Except.error e)
      | .ok _ =>
        match o.editResult with
        | .error e => ([Stage.download, Stage.transcribe, Stage.edit], Except.error e)
        | .ok _ =>
          match o.renderResult with
          | .error e =>
            ([Stage.download, Stage.transcribe, Stage.edit, Stage.writeMarkdown,
              Stage.generatePdf], Except.error e)
          | .ok _ =>
            ([Stage.download, Stage.transcribe, Stage.edit, Stage.writeMarkdown,
              Stage.generatePdf, Stage.deliver], Except.ok ())
  (core ++ [Stage.removeScratch], res)

end Pipeline

/-- Well-formedness of a run-length encoding: every run is non-empty and
adjacent runs carry different characters. -/
def RunsWF (l : List (Char × Nat)) : Prop :=
  (∀ p ∈ l, 1 ≤ p.2) ∧ l.Chain' (fun p q => p.1 ≠ q.1)

/-! ## Helper lemmas -/

theorem char_ofNat_toNat {n : Nat} (h : n.isValidChar) : (Char.ofNat n).toNat = n := by
  simp only [Char.ofNat, dif_pos h]
  simp [Char.ofNatAux, Char.toNat, UInt32.toNat, BitVec.toNat_ofNatLt]

theorem char_toLower_idem (c : Char) : c.toLower.toLower = c.toLower := by
  unfold Char.toLower
  by_cases h : c.toNat ≥ 65 ∧ c.toNat ≤ 90
  · rw [if_pos h]
    have hv : (Char.ofNat (c.toNat + 32)).toNat = c.toNat + 32 := by
      apply char_ofNat_toNat
      left
      omega
    rw [if_neg (by omega)]
  · rw [if_neg h, if_neg h]

theorem py_lower_idem (s : PyStr) : Py.lower (Py.lower s) = Py.lower s := by
  simp [Py.lower, Function.comp_def, char_toLower_idem]

/-! ## Claim theorems -/

/-- C8: on the three fixed example inputs — `https://youtu.be/dQw4w9WgXcQ`,
`https://www.youtube.com/watch?v=dQw4w9WgXcQ` and
`https://www.youtube.com/shorts/dQw4w9WgXcQ` — `extract_video_id` returns
exactly the string `dQw4w9WgXcQ`. -/
theorem extract_video_id_fixed_examples :
    UrlParser.extract_video_id "https://youtu.be/dQw4w9WgXcQ".data =
      some "dQw4w9WgXcQ".data ∧
    UrlParser.extract_video_id "https://www.youtube.com/watch?v=dQw4w9WgXcQ".data =
      some "dQw4w9WgXcQ".data ∧
    UrlParser.extract_video_id "https://www.youtube.com/shorts/dQw4w9WgXcQ".data =
      some "dQw4w9WgXcQ".data :=
  ⟨by decide, by decide, by decide⟩

/-- C2: the render capability's resource fetcher refuses every URL that does
not begin with the scheme `data:` — in particular every `http://`, `https://`
and `file://` URL — returning empty inline content instead of fetching;
only `data:` URIs are handed to the real fetcher. -/
theorem safe_url_fetcher_refuses_non_data (url : PyStr) :
    (Py.startsWith "data:".data url = false →
      PdfGenerator.safe_url_fetcher url = PdfGenerator.FetchResult.blockedEmpty) ∧
    (Py.startsWith "http://".data url = true →
      PdfGenerator.safe_url_fetcher url = PdfGenerator.FetchResult.blockedEmpty) ∧
    (Py.startsWith "https://".data url = true →
      PdfGenerator.safe_url_fetcher url = PdfGenerator.FetchResult.blockedEmpty) ∧
    (Py.startsWith "file://".data url = true →
      PdfGenerator.safe_url_fetcher url = PdfGenerator.FetchResult.blockedEmpty) := by
  have block : Py.startsWith "data:".data url = false →
      PdfGenerator.safe_url_fetcher url = PdfGenerator.FetchResult.blockedEmpty := by
    intro h
    simp [PdfGenerator.safe_url_fetcher, h]
  refine ⟨block, ?_, ?_, ?_⟩ <;>
  · intro h
    apply block
    match url with
    | [] => simp [Py.startsWith] at h
    | c :: cs =>
      simp only [show "http://".data = ['h', 't', 't', 'p', ':', '/', '/'] from rfl,
        show "https://".data = ['h', 't', 't', 'p', 's', ':', '/', '/'] from rfl,
        show "file://".data = ['f', 'i', 'l', 'e', ':', '/', '/'] from rfl,
        Py.startsWith, Bool.and_eq_true, decide_eq_true_eq] at h
      simp only [show "data:".data = ['d', 'a', 't', 'a', ':'] from rfl, Py.startsWith]
      have hc : c ≠ 'd' := by
        intro hc
        rw [hc] at h
        exact absurd h.1 (by decide)
      have hd : decide ('d' = c) = false := decide_eq_false fun hh => hc hh.symm
      simp [hd]

/-- C2 witness: a concrete `http://` URL is blocked with empty content. -/
theorem safe_url_fetcher_refuses_non_data_witness :
    PdfGenerator.safe_url_fetcher "http://169.254.169.254/latest/meta-data".data =
      PdfGenerator.FetchResult.blockedEmpty :=
  (safe_url_fetcher_refuses_non_data _).2.1 (by decide)

/-- C7: when the Fetch stage fails (after its internal retries), the pipeline
performs only the download attempt and the scratch-area removal: the
transcribe, reformat and render capabilities are never invoked, the error is
propagated, and the scratch directory is removed as the last action of the
run. -/
theorem fetch_failure_cleans_and_skips (o : Pipeline.StageOutcomes) (e : PyStr)
    (h : o.fetch = Except.error e) :
    Pipeline.processVideoUrl o =
      ([Pipeline.Stage.download, Pipeline.Stage.removeScratch], Except.error e) ∧
    Pipeline.Stage.transcribe ∉ (Pipeline.processVideoUrl o).1 ∧
    Pipeline.Stage.edit ∉ (Pipeline.processVideoUrl o).1 ∧
    Pipeline.Stage.generatePdf ∉ (Pipeline.processVideoUrl o).1 ∧
    (Pipeline.processVideoUrl o).1.getLast? = some Pipeline.Stage.removeScratch := by
  have hrun : Pipeline.processVideoUrl o =
      ([Pipeline.Stage.download, Pipeline.Stage.removeScratch], Except.error e) := by
    simp [Pipeline.processVideoUrl, h]
  refine ⟨hrun, ?_, ?_, ?_, ?_⟩ <;> rw [hrun] <;> simp

/-- C7 witness: a concrete run whose fetch outcome is an error. -/
theorem fetch_failure_cleans_and_skips_witness :
    Pipeline.processVideoUrl
      ⟨Except.error "Failed to download audio".data, Except.ok [], Except.ok [],
        Except.ok ()⟩ =
      ([Pipeline.Stage.download, Pipeline.Stage.removeScratch],
        Except.error "Failed to download audio".data) :=
  (fetch_failure_cleans_and_skips _ _ rfl).1

/-- When every attempt fails, the retry loop makes one call per attempt and
sleeps with doubling delays between consecutive attempts. -/
theorem retryAux_const_error {E T : Type} (fn : Nat → Except E T) (errs : Nat → E)
    (hf : ∀ k, fn k = .error (errs k)) (base : Nat) :
    ∀ (r a : Nat), 1 ≤ a →
      Retry.retryAux fn base a r =
        .exhausted (some (errs (a + r))) (r + 1)
          ((List.range r).map (fun i => base * 2 ^ (a - 1 + i))) := by
  intro r
  induction r with
  | zero =>
    intro a _
    simp [Retry.retryAux, hf a]
  | succ n ih =>
    intro a ha
    have hrec := ih (a + 1) (by omega)
    have hd : (List.range (n + 1)).map (fun i => base * 2 ^ (a - 1 + i)) =
        (base * 2 ^ (a - 1)) :: (List.range n).map (fun i => base * 2 ^ (a + 1 - 1 + i)) := by
      rw [List.range_succ_eq_map]
      simp only [List.map_cons, List.map_map]
      refine congrArg₂ List.cons (by simp) (List.map_congr_left ?_)
      intro i _
      simp only [Function.comp_apply]
      congr 2
      omega
    have hidx : a + 1 + n = a + (n + 1) := by omega
    simp only [Retry.retryAux, hf a, hrec, hd, hidx]

/-- C5: with `max_attempts = 3`, an operation failing on attempts 1 and 2 and
succeeding on attempt 3 yields the third attempt's value after exactly three
invocations and exactly two sleeps of `base_delay_ms` and
`2 * base_delay_ms`; and an operation failing on every attempt raises the
aggregate error (wrapping the last failure) after exactly `max_attempts`
invocations, the k-th backoff being `base_delay_ms * 2 ^ (k - 1)`. -/
theorem with_retry_backoff_spec {E T : Type} (fn : Nat → Except E T) (base : Nat) :
    (∀ (e1 e2 : E) (v : T), fn 1 = .error e1 → fn 2 = .error e2 → fn 3 = .ok v →
      Retry.with_retry fn 3 base = .success v 3 [base, 2 * base]) ∧
    (∀ (errs : Nat → E) (maxAttempts : Nat), 1 ≤ maxAttempts →
      (∀ k, fn k = .error (errs k)) →
      Retry.with_retry fn maxAttempts base =
        .exhausted (some (errs maxAttempts)) maxAttempts
          ((List.range (maxAttempts - 1)).map (fun i => base * 2 ^ i))) := by
  constructor
  · intro e1 e2 v h1 h2 h3
    simp only [Retry.with_retry, Retry.retryAux, h1, h2, h3]
    norm_num [Nat.mul_comm]
  · intro errs maxAttempts hmax hf
    have := retryAux_const_error fn errs hf base (maxAttempts - 1) 1 (by omega)
    simp only [Retry.with_retry, if_neg (by omega : ¬ maxAttempts = 0), this]
    have h1 : 1 + (maxAttempts - 1) = maxAttempts := by omega
    have h2 : maxAttempts - 1 + 1 = maxAttempts := by omega
    rw [h1, h2]
    simp

/-- C5 witness: fail, fail, succeed with `base_delay_ms = 5`: the value is
returned after 3 calls with sleeps of 5 ms and 10 ms; and an always-failing
operation with `max_attempts = 3` raises after exactly 3 calls. -/
theorem with_retry_backoff_spec_witness :
    Retry.with_retry (fun k => if k = 3 then Except.ok 7 else Except.error ()) 3 5 =
      Retry.RetryOutcome.success 7 3 [5, 10] ∧
    Retry.with_retry (fun _ : Nat => (Except.error () : Except Unit Nat)) 3 5 =
      Retry.RetryOutcome.exhausted (some ()) 3 [5, 10] :=
  ⟨(with_retry_backoff_spec _ 5).1 () () 7 rfl rfl rfl,
   by
    have := (with_retry_backoff_spec (fun _ : Nat => (Except.error () : Except Unit Nat))
      5).2 (fun _ => ()) 3 (by omega) (fun _ => rfl)
    simpa using this⟩

theorem assocGet_assocSet (l : List (String × String)) (k v : String) :
    SettingsStore.assocGet (SettingsStore.assocSet l k v) k = some v := by
  induction l with
  | nil => simp [SettingsStore.assocSet, SettingsStore.assocGet]
  | cons p rest ih =>
    obtain ⟨k', v'⟩ := p
    by_cases h : k' = k
    · simp [SettingsStore.assocSet, SettingsStore.assocGet, h]
    · simp [SettingsStore.assocSet, SettingsStore.assocGet, h, ih]

theorem memGet_after_memSet (m : SettingsStore.Mem) (cid : Int) (k v : String) :
    (match SettingsStore.memGet (SettingsStore.memSet m cid k v) cid with
     | none => none
     | some kvs => SettingsStore.assocGet kvs k) = some v := by
  induction m with
  | nil => simp [SettingsStore.memSet, SettingsStore.memGet, SettingsStore.assocGet]
  | cons p rest ih =>
    obtain ⟨c, kvs⟩ := p
    by_cases h : c = cid
    · simp [SettingsStore.memSet, SettingsStore.memGet, h, assocGet_assocSet]
    · simp only [SettingsStore.memSet, SettingsStore.memGet, if_neg h]
      exact ih

/-- C4: `set` updates the in-memory mapping and then rewrites the durable
file via serialize-to-temp plus atomic rename; if the rewrite raises at any
step, the temp file is discarded and the durable file's bytes are exactly
what they were before, while a successful rewrite leaves the durable file
holding the serialization of the entire updated mapping. -/
theorem settings_set_atomic_durable (st : SettingsStore.Store) (cid : Int)
    (k v : String) (fp : SettingsStore.FailPoint) (htmp : st.fs.tmp = none) :
    (SettingsStore.set st cid k v fp).mem = SettingsStore.memSet st.mem cid k v ∧
    (fp = SettingsStore.FailPoint.noFail →
      (SettingsStore.set st cid k v fp).fs.target =
        SettingsStore.serializeSettings (SettingsStore.memSet st.mem cid k v) ∧
      (SettingsStore.set st cid k v fp).fs.tmp = none) ∧
    (fp ≠ SettingsStore.FailPoint.noFail →
      (SettingsStore.set st cid k v fp).fs.target = st.fs.target ∧
      (SettingsStore.set st cid k v fp).fs.tmp = none) := by
  cases fp <;>
    simp [SettingsStore.set, SettingsStore.save, SettingsStore.saveBody, htmp]

/-- C4 witness: a concrete `set` whose durable write fails at the atomic
rename leaves the durable bytes unchanged and no temp file behind. -/
theorem settings_set_atomic_durable_witness :
    (SettingsStore.set ⟨[], ⟨"old-bytes".data, none⟩⟩ 5 "translation" "true"
        SettingsStore.FailPoint.atReplace).fs.target = "old-bytes".data ∧
    (SettingsStore.set ⟨[], ⟨"old-bytes".data, none⟩⟩ 5 "translation" "true"
        SettingsStore.FailPoint.atReplace).fs.tmp = none :=
  (settings_set_atomic_durable ⟨[], ⟨"old-bytes".data, none⟩⟩ 5 "translation" "true"
    SettingsStore.FailPoint.atReplace rfl).2.2 (by decide)

/-- C10: `set` never propagates a durable-write failure (its model is a total
function; `_save` swallows every exception), and after a failed rewrite the
in-memory update survives: `get` of the same chat id and key returns the new
value while the durable file still holds the previous bytes. -/
theorem settings_set_failure_keeps_memory (st : SettingsStore.Store) (cid : Int)
    (k v d : String) (fp : SettingsStore.FailPoint)
    (hfp : fp ≠ SettingsStore.FailPoint.noFail) :
    SettingsStore.get (SettingsStore.set st cid k v fp) cid k d = v ∧
    (SettingsStore.set st cid k v fp).fs.target = st.fs.target := by
  constructor
  · have hmem : (SettingsStore.set st cid k v fp).mem =
        SettingsStore.memSet st.mem cid k v := by
      simp [SettingsStore.set]
    unfold SettingsStore.get
    rw [hmem]
    have := memGet_after_memSet st.mem cid k v
    cases hm : SettingsStore.memGet (SettingsStore.memSet st.mem cid k v) cid with
    | none => rw [hm] at this; simp at this
    | some kvs =>
      rw [hm] at this
      simp only at this
      simp [this]
  · cases fp <;>
      simp_all [SettingsStore.set, SettingsStore.save, SettingsStore.saveBody]

/-- C10 witness: after a failed durable rewrite, the fresh value is readable
in memory while the durable file is untouched. -/
theorem settings_set_failure_keeps_memory_witness :
    SettingsStore.get
      (SettingsStore.set ⟨[], ⟨"old-bytes".data, none⟩⟩ 5 "editor_model" "pro"
        SettingsStore.FailPoint.atWrite) 5 "editor_model" "flash" = "pro" ∧
    (SettingsStore.set ⟨[], ⟨"old-bytes".data, none⟩⟩ 5 "editor_model" "pro"
        SettingsStore.FailPoint.atWrite).fs.target = "old-bytes".data :=
  settings_set_failure_keeps_memory ⟨[], ⟨"old-bytes".data, none⟩⟩ 5 "editor_model"
    "pro" "flash" SettingsStore.FailPoint.atWrite (by decide)

theorem mem_basename_ne_slash {c : Char} {p : PyStr}
    (h : c ∈ Handlers.basename p) : c ≠ '/' := by
  simp only [Handlers.basename, Py.afterLast, List.mem_reverse] at h
  have := List.mem_takeWhile_imp h
  simpa using this

theorem mem_splitext_fst {c : Char} {p : PyStr}
    (h : c ∈ (Handlers.splitext p).1) : c ∈ p := by
  unfold Handlers.splitext at h
  simp only at h
  split at h
  · simpa using h
  · split at h
    · simpa using h
    · simp only at h
      have : c ∈ p.reverse := List.drop_subset _ _ (List.mem_reverse.mp h)
      exact List.mem_reverse.mp this

theorem mem_splitext_snd {c : Char} {p : PyStr}
    (h : c ∈ (Handlers.splitext p).2) : c = '.' ∨ c ∈ p := by
  unfold Handlers.splitext at h
  simp only at h
  split at h
  · simp at h
  · split at h
    · simp at h
    · simp only [List.mem_cons] at h
      rcases h with h | h
      · exact Or.inl h
      · right
        have : c ∈ p.reverse.takeWhile (· ≠ '.') := List.mem_reverse.mp h
        exact List.mem_reverse.mp ((List.takeWhile_prefix _).subset this)

theorem splitext_length (p : PyStr) :
    (Handlers.splitext p).1.length + (Handlers.splitext p).2.length = p.length := by
  have hle : (p.reverse.takeWhile (· ≠ '.')).length ≤ p.length := by
    simpa using List.Sublist.length_le (List.takeWhile_sublist (l := p.reverse) (· ≠ '.'))
  unfold Handlers.splitext
  simp only
  split
  · simp
  · split
    · simp
    · simp only [List.length_reverse, List.length_drop, List.length_cons]
      omega

theorem mem_substUnsafe {w : Char → Bool} {c : Char} {s : PyStr}
    (h : c ∈ Handlers.substUnsafe w s) :
    c = '_' ∨ (c ∈ s ∧ Handlers.isSafeChar w c = true) := by
  simp only [Handlers.substUnsafe, List.mem_map] at h
  obtain ⟨a, ha, hfa⟩ := h
  by_cases hs : Handlers.isSafeChar w a
  · rw [if_pos hs] at hfa
    exact Or.inr ⟨hfa ▸ ha, hfa ▸ hs⟩
  · rw [if_neg hs] at hfa
    exact Or.inl hfa.symm

theorem basename_length_le (p : PyStr) :
    (Handlers.basename p).length ≤ p.length := by
  simp only [Handlers.basename, Py.afterLast, List.length_reverse]
  simpa using List.Sublist.length_le (List.takeWhile_sublist (l := p.reverse) (· ≠ '/'))

/-- C3 counterexample: the claim "the result contains no `..` substring" is
false — `'.'` is an allowed character, so `sanitize_filename("a..b")`
returns `a..b`, which contains `..`. -/
theorem sanitize_filename_dotdot_counterexample :
    Handlers.sanitize_filename Handlers.asciiWordChar "a..b".data 50 = "a..b".data ∧
    Py.containsSub "..".data
      (Handlers.sanitize_filename Handlers.asciiWordChar "a..b".data 50) = true :=
  ⟨by decide, by decide⟩

/-- C3 (amended): `sanitize_filename` strips path components and substitutes
unsafe characters, so for any input (and any Unicode word-character oracle
`w` that, like Python's, excludes the null byte) the output contains no `/`
and no null byte, its length is bounded (the base is truncated to
`max_length`, with `"file"` substituted when empty), and the output is
non-empty; the function is a total Lean function, hence deterministic and
never raises.  Unlike the original claim, the output MAY contain `..`,
because `'.'` is an allowed character (see the counterexample). -/
theorem sanitize_filename_guarantees (w : Char → Bool) (filename : PyStr)
    (maxLen : Nat) (hw : w '\x00' = false) :
    '/' ∉ Handlers.sanitize_filename w filename maxLen ∧
    '\x00' ∉ Handlers.sanitize_filename w filename maxLen ∧
    (Handlers.sanitize_filename w filename maxLen).length ≤
      max maxLen 4 + filename.length ∧
    Handlers.sanitize_filename w filename maxLen ≠ [] := by
  rcases hsp : Handlers.splitext (Handlers.basename filename) with ⟨name0, ext0⟩
  set name1 := Handlers.substUnsafe w name0 with hn1
  set name2 := if name1.length > maxLen then name1.take maxLen else name1 with hn2
  set name3 := if name2 = [] then "file".data else name2 with hn3
  set ext1 := Handlers.substUnsafe w ext0 with he1
  have hdef : Handlers.sanitize_filename w filename maxLen = name3 ++ ext1 := by
    unfold Handlers.sanitize_filename
    simp only
    rw [hsp]
  have hname2_sub : name2 ⊆ name1 := by
    rw [hn2]
    split
    · exact List.take_subset _ _
    · exact fun _ h => h
  have hmem_name : ∀ c ∈ name3,
      c = '_' ∨ (c ∈ Handlers.basename filename ∧ Handlers.isSafeChar w c = true) ∨
        c ∈ "file".data := by
    intro c hc
    rw [hn3] at hc
    split at hc
    · exact Or.inr (Or.inr hc)
    · rcases mem_substUnsafe (hname2_sub hc) with h | ⟨h0, hs⟩
      · exact Or.inl h
      · exact Or.inr (Or.inl ⟨mem_splitext_fst (p := Handlers.basename filename)
          (by rw [hsp]; exact h0), hs⟩)
  have hmem_ext : ∀ c ∈ ext1,
      c = '_' ∨ ((c = '.' ∨ c ∈ Handlers.basename filename) ∧
        Handlers.isSafeChar w c = true) := by
    intro c hc
    rcases mem_substUnsafe hc with h | ⟨h0, hs⟩
    · exact Or.inl h
    · exact Or.inr ⟨mem_splitext_snd (p := Handlers.basename filename)
        (by rw [hsp]; exact h0), hs⟩
  have hnul : Handlers.isSafeChar w '\x00' = false := by
    simp [Handlers.isSafeChar, hw]
  refine ⟨?_, ?_, ?_, ?_⟩
  · rw [hdef]
    intro hmem
    rcases List.mem_append.mp hmem with h | h
    · rcases hmem_name _ h with h1 | ⟨hb, _⟩ | h1
      · exact absurd h1 (by decide)
      · exact mem_basename_ne_slash hb rfl
      · exact absurd h1 (by decide)
    · rcases hmem_ext _ h with h1 | ⟨hd, _⟩
      · exact absurd h1 (by decide)
      · rcases hd with h1 | hb
        · exact absurd h1 (by decide)
        · exact mem_basename_ne_slash hb rfl
  · rw [hdef]
    intro hmem
    rcases List.mem_append.mp hmem with h | h
    · rcases hmem_name _ h with h1 | ⟨_, hs⟩ | h1
      · exact absurd h1 (by decide)
      · rw [hnul] at hs; exact absurd hs (by decide)
      · exact absurd h1 (by decide)
    · rcases hmem_ext _ h with h1 | ⟨_, hs⟩
      · exact absurd h1 (by decide)
      · rw [hnul] at hs; exact absurd hs (by decide)
  · rw [hdef]
    have hsplen := splitext_length (Handlers.basename filename)
    rw [hsp] at hsplen
    simp only at hsplen
    have hb := basename_length_le filename
    have hext_len : ext1.length = ext0.length := by
      rw [he1]; simp [Handlers.substUnsafe]
    have hn1_len : name1.length = name0.length := by
      rw [hn1]; simp [Handlers.substUnsafe]
    have hlen3 : name3.length ≤ max maxLen 4 + name0.length := by
      rw [hn3]
      split
      · have : (4 : Nat) ≤ max maxLen 4 := le_max_right _ _
        simp only [show ("file".data).length = 4 from rfl]
        omega
      · rw [hn2]
        split
        · have := List.length_take_le maxLen name1
          have : (name1.take maxLen).length ≤ maxLen := this
          have h4 : maxLen ≤ max maxLen 4 := le_max_left _ _
          omega
        · omega
    rw [List.length_append]
    omega
  · rw [hdef]
    have hname3_ne : name3 ≠ [] := by
      rw [hn3]
      split
      · decide
      · rename_i hne
        exact hne
    intro hc
    exact hname3_ne (List.append_eq_nil.mp hc).1

/-- C3 witness: the guarantees instantiated on a concrete traversal-style
input with the ASCII word-character class. -/
theorem sanitize_filename_guarantees_witness :
    '/' ∉ Handlers.sanitize_filename Handlers.asciiWordChar "../../etc/passwd".data 50 ∧
    '\x00' ∉ Handlers.sanitize_filename Handlers.asciiWordChar "../../etc/passwd".data 50 ∧
    (Handlers.sanitize_filename Handlers.asciiWordChar "../../etc/passwd".data 50).length ≤
      max 50 4 + ("../../etc/passwd".data).length ∧
    Handlers.sanitize_filename Handlers.asciiWordChar "../../etc/passwd".data 50 ≠ [] :=
  sanitize_filename_guarantees Handlers.asciiWordChar "../../etc/passwd".data 50
    (by decide)

theorem validateTranscription_blank {t : Option PyStr}
    (h : Transcriber.isBlankResponse t = true) :
    Transcriber.validateTranscription t = .error .emptyResult := by
  cases t with
  | none => rfl
  | some s =>
    simp only [Transcriber.isBlankResponse, Bool.or_eq_true, decide_eq_true_eq] at h
    rcases h with h | h <;> simp [Transcriber.validateTranscription, h]

theorem validateEditing_blank {t : Option PyStr}
    (h : Transcriber.isBlankResponse t = true) :
    Transcriber.validateEditing t = .error .emptyResult := by
  cases t with
  | none => rfl
  | some s =>
    simp only [Transcriber.isBlankResponse, Bool.or_eq_true, decide_eq_true_eq] at h
    rcases h with h | h <;> simp [Transcriber.validateEditing, h]

theorem validateTranscription_not_blank {s : PyStr}
    (h : Transcriber.isBlankResponse (some s) = false) :
    Transcriber.validateTranscription (some s) = .ok s := by
  simp only [Transcriber.isBlankResponse, Bool.or_eq_false_iff] at h
  simp [Transcriber.validateTranscription, h]

theorem validateEditing_not_blank {s : PyStr}
    (h : Transcriber.isBlankResponse (some s) = false) :
    Transcriber.validateEditing (some s) = .ok s := by
  simp only [Transcriber.isBlankResponse, Bool.or_eq_false_iff] at h
  simp [Transcriber.validateEditing, h]

theorem with_retry_const_error {E T : Type} (fn : Nat → Except E T) (e : E)
    (hf : ∀ k, fn k = .error e) (base m : Nat) (hm : 1 ≤ m) :
    Retry.with_retry fn m base =
      .exhausted (some e) m ((List.range (m - 1)).map (fun i => base * 2 ^ i)) := by
  have := retryAux_const_error fn (fun _ => e) hf base (m - 1) 1 (by omega)
  simp only [Retry.with_retry, if_neg (by omega : ¬ m = 0), this]
  have h2 : m - 1 + 1 = m := by omega
  rw [h2]
  simp

/-- C6: a transcribe or reformat attempt whose backend call returns without
error but yields a missing, empty or whitespace-only text raises inside the
retry wrapper, so it is retried exactly like a transient remote error: if
every attempt yields blank text the stage exhausts its `max_attempts` and
fails with the empty-result error, while a blank first attempt followed by a
non-blank second attempt succeeds with the second attempt's text after one
backoff sleep. -/
theorem empty_result_treated_as_failure
    (backend : Nat → Except Unit (Option PyStr)) (texts : Nat → Option PyStr)
    (base maxAttempts : Nat) (hmax : 1 ≤ maxAttempts)
    (hb : ∀ k, backend k = Except.ok (texts k)) :
    ((∀ k, Transcriber.isBlankResponse (texts k) = true) →
      Retry.with_retry (Transcriber.transcribeAttempt backend) maxAttempts base =
        .exhausted (some .emptyResult) maxAttempts
          ((List.range (maxAttempts - 1)).map (fun i => base * 2 ^ i)) ∧
      Retry.with_retry (Transcriber.editAttempt backend) maxAttempts base =
        .exhausted (some .emptyResult) maxAttempts
          ((List.range (maxAttempts - 1)).map (fun i => base * 2 ^ i))) ∧
    (∀ t : PyStr, Transcriber.isBlankResponse (texts 1) = true →
      texts 2 = some t → Transcriber.isBlankResponse (some t) = false →
      Retry.with_retry (Transcriber.transcribeAttempt backend) 3 base =
        .success t 2 [base] ∧
      Retry.with_retry (Transcriber.editAttempt backend) 3 base =
        .success t 2 [base]) := by
  constructor
  · intro hblank
    constructor
    · apply with_retry_const_error _ _ _ _ _ hmax
      intro k
      simp [Transcriber.transcribeAttempt, hb k, validateTranscription_blank (hblank k)]
    · apply with_retry_const_error _ _ _ _ _ hmax
      intro k
      simp [Transcriber.editAttempt, hb k, validateEditing_blank (hblank k)]
  · intro t h1 h2 hnb
    constructor
    · have f1 : Transcriber.transcribeAttempt backend 1 = .error .emptyResult := by
        simp [Transcriber.transcribeAttempt, hb 1, validateTranscription_blank h1]
      have f2 : Transcriber.transcribeAttempt backend 2 = .ok t := by
        simp [Transcriber.transcribeAttempt, hb 2, h2, validateTranscription_not_blank hnb]
      simp [Retry.with_retry, Retry.retryAux, f1, f2]
    · have f1 : Transcriber.editAttempt backend 1 = .error .emptyResult := by
        simp [Transcriber.editAttempt, hb 1, validateEditing_blank h1]
      have f2 : Transcriber.editAttempt backend 2 = .ok t := by
        simp [Transcriber.editAttempt, hb 2, h2, validateEditing_not_blank hnb]
      simp [Retry.with_retry, Retry.retryAux, f1, f2]

/-- C6 witness: a backend that returns whitespace on attempt 1 and real text
on attempt 2: the blank result is retried and the second text is returned. -/
theorem empty_result_treated_as_failure_witness :
    Retry.with_retry
      (Transcriber.transcribeAttempt
        (fun k => Except.ok (if k = 1 then some "  ".data else some "hello".data)))
      3 100 =
      Retry.RetryOutcome.success "hello".data 2 [100] ∧
    Retry.with_retry
      (Transcriber.editAttempt
        (fun k => Except.ok (if k = 1 then some "  ".data else some "hello".data)))
      3 100 =
      Retry.RetryOutcome.success "hello".data 2 [100] :=
  (empty_result_treated_as_failure _
      (fun k => if k = 1 then some "  ".data else some "hello".data) 100 3
      (by omega) (fun _ => rfl)).2
    "hello".data (by decide) (by decide) (by decide)

theorem runsAux_head (rest : PyStr) (c : Char) (n : Nat) :
    ∃ j t, Transcriber.runsAux c n rest = (c, n + j) :: t := by
  induction rest generalizing c n with
  | nil => exact ⟨0, [], by simp [Transcriber.runsAux]⟩
  | cons d rest ih =>
    by_cases hd : d = c
    · subst hd
      obtain ⟨j, t, h⟩ := ih d (n + 1)
      refine ⟨j + 1, t, ?_⟩
      rw [Transcriber.runsAux, if_pos rfl, h]
      congr 2
      omega
    · exact ⟨0, Transcriber.runsAux d 1 rest, by simp [Transcriber.runsAux, hd]⟩

theorem runsAux_counts_pos (rest : PyStr) (c : Char) (n : Nat) (hn : 1 ≤ n) :
    ∀ p ∈ Transcriber.runsAux c n rest, 1 ≤ p.2 := by
  induction rest generalizing c n with
  | nil =>
    intro p hp
    simp [Transcriber.runsAux] at hp
    simp [hp, hn]
  | cons d rest ih =>
    intro p hp
    by_cases hd : d = c
    · rw [Transcriber.runsAux, if_pos hd] at hp
      exact ih c (n + 1) (by omega) p hp
    · rw [Transcriber.runsAux, if_neg hd, List.mem_cons] at hp
      rcases hp with hp | hp
      · simp [hp, hn]
      · exact ih d 1 (by omega) p hp

theorem runsAux_chain (rest : PyStr) (c : Char) (n : Nat) :
    (Transcriber.runsAux c n rest).Chain' (fun p q => p.1 ≠ q.1) := by
  induction rest generalizing c n with
  | nil => simp [Transcriber.runsAux]
  | cons d rest ih =>
    by_cases hd : d = c
    · rw [Transcriber.runsAux, if_pos hd]
      exact ih c (n + 1)
    · rw [Transcriber.runsAux, if_neg hd]
      obtain ⟨j, t, hh⟩ := runsAux_head rest d 1
      rw [hh]
      refine List.chain'_cons.mpr ⟨?_, hh ▸ ih d 1⟩
      simpa using fun hc => hd hc.symm

theorem RunsWF_runs (s : PyStr) : RunsWF (Transcriber.runs s) := by
  cases s with
  | nil => exact ⟨by simp [Transcriber.runs], by simp [Transcriber.runs]⟩
  | cons c rest =>
    exact ⟨runsAux_counts_pos rest c 1 (by omega), runsAux_chain rest c 1⟩

theorem unruns_runsAux (rest : PyStr) (c : Char) (n : Nat) :
    Transcriber.unruns (Transcriber.runsAux c n rest) = List.replicate n c ++ rest := by
  induction rest generalizing c n with
  | nil => simp [Transcriber.runsAux, Transcriber.unruns]
  | cons d rest ih =>
    by_cases hd : d = c
    · subst hd
      rw [Transcriber.runsAux, if_pos rfl, ih]
      rw [List.replicate_succ']
      simp
    · rw [Transcriber.runsAux, if_neg hd]
      simp [Transcriber.unruns] at ih ⊢
      rw [ih d 1]
      simp

theorem unruns_runs (s : PyStr) : Transcriber.unruns (Transcriber.runs s) = s := by
  cases s with
  | nil => rfl
  | cons c rest =>
    rw [Transcriber.runs, unruns_runsAux]
    simp

theorem runsAux_replicate (m : Nat) (t : PyStr) (c : Char) (k : Nat) :
    Transcriber.runsAux c k (List.replicate m c ++ t) =
      Transcriber.runsAux c (k + m) t := by
  induction m generalizing k with
  | zero => simp
  | succ m ih =>
    rw [List.replicate_succ, List.cons_append, Transcriber.runsAux, if_pos rfl, ih]
    congr 1
    omega

theorem runs_unruns (l : List (Char × Nat)) (hwf : RunsWF l) :
    Transcriber.runs (Transcriber.unruns l) = l := by
  induction l with
  | nil => rfl
  | cons p rest ih =>
    obtain ⟨c, n⟩ := p
    have hn : 1 ≤ n := hwf.1 (c, n) (by simp)
    have hrest_wf : RunsWF rest :=
      ⟨fun q hq => hwf.1 q (List.mem_cons_of_mem _ hq), hwf.2.tail⟩
    have hunr : Transcriber.unruns ((c, n) :: rest) =
        List.replicate n c ++ Transcriber.unruns rest := by
      simp [Transcriber.unruns]
    rw [hunr]
    have hrepl : List.replicate n c = c :: List.replicate (n - 1) c := by
      rw [show n = (n - 1) + 1 by omega, List.replicate_succ]
      simp
    rw [hrepl, List.cons_append, Transcriber.runs, runsAux_replicate]
    have h1n : 1 + (n - 1) = n := by omega
    rw [h1n]
    cases hr : rest with
    | nil => simp [Transcriber.runsAux, Transcriber.unruns]
    | cons q rest2 =>
      obtain ⟨d, m⟩ := q
      have hm : 1 ≤ m := hwf.1 (d, m) (by simp [hr])
      have hdc : c ≠ d := by
        have hch := hwf.2
        rw [hr] at hch
        exact (List.chain'_cons.mp hch).1
      have hunr2 : Transcriber.unruns ((d, m) :: rest2) =
          d :: (List.replicate (m - 1) d ++ Transcriber.unruns rest2) := by
        simp only [Transcriber.unruns, List.foldr_cons]
        rw [show List.replicate m d = d :: List.replicate (m - 1) d by
          rw [show m = (m - 1) + 1 by omega, List.replicate_succ]; simp]
        simp [Transcriber.unruns]
      have ihr : Transcriber.runs (Transcriber.unruns ((d, m) :: rest2)) =
          (d, m) :: rest2 := by
        rw [← hr]
        exact ih hrest_wf
      have ihr2 : Transcriber.runsAux d 1
          (List.replicate (m - 1) d ++ Transcriber.unruns rest2) = (d, m) :: rest2 := by
        rw [hunr2] at ihr
        exact ihr
      rw [hunr2, Transcriber.runsAux, if_neg (fun h => hdc h.symm), ihr2]

theorem RunsWF_collapseRuns (m : Nat) (l : List (Char × Nat)) (hwf : RunsWF l) :
    RunsWF (Transcriber.collapseRuns m l) := by
  constructor
  · intro p hp
    simp only [Transcriber.collapseRuns, List.mem_map] at hp
    obtain ⟨q, hq, hqp⟩ := hp
    have := hwf.1 q hq
    subst hqp
    split <;> simp_all
  · simp only [Transcriber.collapseRuns]
    rw [List.chain'_map]
    exact hwf.2

theorem runs_cleanup (s : PyStr) (m : Nat) :
    Transcriber.runs (Transcriber.cleanup_repetitive_characters s m) =
      Transcriber.collapseRuns m (Transcriber.runs s) := by
  unfold Transcriber.cleanup_repetitive_characters
  exact runs_unruns _ (RunsWF_collapseRuns m _ (RunsWF_runs s))

theorem hasLongRunAux_eq (rest : PyStr) (c : Char) (n : Nat)
    (h : c = '\n' ∨ n ≤ 10) :
    Transcriber.hasLongRunAux c n rest =
      (Transcriber.runsAux c n rest).any
        (fun p => (p.1 != '\n') && decide (10 < p.2)) := by
  induction rest generalizing c n with
  | nil =>
    simp only [Transcriber.hasLongRunAux, Transcriber.runsAux, List.any_cons,
      List.any_nil, Bool.or_false]
    rcases h with h | h
    · simp [h]
    · simp [show ¬ (10 < n) by omega]
  | cons d rest ih =>
    by_cases hd : d = c
    · subst hd
      rw [Transcriber.hasLongRunAux, if_pos rfl, Transcriber.runsAux, if_pos rfl]
      by_cases hcond : (10 < n + 1 ∧ d ≠ '\n')
      · rw [if_pos (by simpa using hcond)]
        obtain ⟨j, t, hh⟩ := runsAux_head rest d (n + 1)
        rw [hh]
        simp only [List.any_cons]
        have h1 : (d != '\n') = true := by
          simpa using hcond.2
        have h2 : decide (10 < n + 1 + j) = true := by
          simp
          omega
        simp [h1, h2]
      · rw [if_neg (by simpa using hcond)]
        apply ih
        rcases Decidable.not_and_iff_or_not.mp hcond with h1 | h1
        · right; omega
        · left; simpa using h1
    · rw [Transcriber.hasLongRunAux, if_neg hd, Transcriber.runsAux, if_neg hd]
      simp only [List.any_cons]
      have hfalse : ((c != '\n') && decide (10 < n)) = false := by
        rcases h with h | h
        · simp [h]
        · simp [show ¬ (10 < n) by omega]
      rw [hfalse]
      simp only [Bool.false_or]
      exact ih d 1 (Or.inr (by omega))

theorem hasLongRun_eq (s : PyStr) :
    Transcriber.hasLongRun s =
      (Transcriber.runs s).any (fun p => (p.1 != '\n') && decide (10 < p.2)) := by
  cases s with
  | nil => rfl
  | cons c rest => exact hasLongRunAux_eq rest c 1 (Or.inr (by omega))

/-- C9: the transcribe stage's repetition cleanup collapses every maximal run
of 11 or more identical non-newline characters to a single occurrence, so the
cleaned text contains no run of more than 10 identical consecutive
non-newline characters; and a text with no such run is returned unchanged
(runs of 10 or fewer, and newline runs of any length, are preserved). -/
theorem cleanup_repetitive_characters_spec (s : PyStr) :
    Transcriber.hasLongRun (Transcriber.cleanup_repetitive_characters s 10) = false ∧
    (Transcriber.hasLongRun s = false →
      Transcriber.cleanup_repetitive_characters s 10 = s) := by
  constructor
  · rw [hasLongRun_eq, runs_cleanup]
    simp only [Transcriber.collapseRuns, List.any_map, List.any_eq_false]
    intro p _
    simp only [Function.comp_apply]
    by_cases hn : p.1 = '\n'
    · simp [hn]
    · split
      · simp
      · rename_i hcond
        have : ¬ (10 < p.2) := fun hlt => hcond ⟨hn, hlt⟩
        simp [this]
  · intro h
    rw [hasLongRun_eq, List.any_eq_false] at h
    have hmap : Transcriber.collapseRuns 10 (Transcriber.runs s) =
        Transcriber.runs s := by
      unfold Transcriber.collapseRuns
      have hid : ∀ p ∈ Transcriber.runs s,
          (p.1, if p.1 ≠ '\n' ∧ 10 < p.2 then 1 else p.2) = p := by
        intro p hp
        have hb : ((p.1 != '\n') && decide (10 < p.2)) = false :=
          Bool.eq_false_iff.mpr (h p hp)
        simp only [Bool.and_eq_false_iff, bne_eq_false_iff_eq,
          decide_eq_false_iff_not, not_lt] at hb
        rcases hb with hnl | hle
        · rw [if_neg (fun hc => hc.1 hnl)]
        · rw [if_neg (fun hc => absurd hc.2 (by omega))]
      rw [List.map_congr_left hid]
      simp
    unfold Transcriber.cleanup_repetitive_characters
    rw [hmap, unruns_runs]

/-- C9 witness: a text with no long run is returned unchanged, and the
cleanup of a text containing a 12-character run has no long run. -/
theorem cleanup_repetitive_characters_spec_witness :
    Transcriber.cleanup_repetitive_characters "aaaa\nbbb".data 10 = "aaaa\nbbb".data ∧
    Transcriber.hasLongRun
      (Transcriber.cleanup_repetitive_characters "aaaaaaaaaaaab".data 10) = false :=
  ⟨(cleanup_repetitive_characters_spec "aaaa\nbbb".data).2 (by decide),
   (cleanup_repetitive_characters_spec "aaaaaaaaaaaab".data).1⟩

theorem observedHost_lower (url : PyStr) :
    Py.lower (UrlParser.observedHost url) = UrlParser.observedHost url := by
  unfold UrlParser.observedHost
  exact py_lower_idem _

theorem isYoutubeHost_iff (hst : PyStr) :
    UrlParser.isYoutubeHost hst = true ↔
      (hst ≠ [] ∧ ∃ d ∈ UrlParser.YOUTUBE_DOMAINS,
        Py.lower hst = d ∨ Py.endsWith ('.' :: d) (Py.lower hst) = true) := by
  by_cases hh : hst = []
  · simp [UrlParser.isYoutubeHost, hh]
  · simp [UrlParser.isYoutubeHost, hh, List.any_eq_true]

theorem isBilibiliHost_iff (hst : PyStr) :
    UrlParser.isBilibiliHost hst = true ↔
      (hst ≠ [] ∧ ∃ d ∈ UrlParser.BILIBILI_DOMAINS,
        Py.lower hst = d ∨ Py.endsWith ('.' :: d) (Py.lower hst) = true) := by
  by_cases hh : hst = []
  · simp [UrlParser.isBilibiliHost, hh]
  · simp [UrlParser.isBilibiliHost, hh, List.any_eq_true]

theorem isApplePodcastsHost_iff (hst : PyStr) :
    UrlParser.isApplePodcastsHost hst = true ↔
      (hst ≠ [] ∧ ∃ d ∈ UrlParser.APPLE_PODCASTS_DOMAINS,
        Py.lower hst = d ∨ Py.endsWith ('.' :: d) (Py.lower hst) = true) := by
  by_cases hh : hst = []
  · simp [UrlParser.isApplePodcastsHost, hh]
  · simp [UrlParser.isApplePodcastsHost, hh, List.any_eq_true]

theorem extract_video_id_none_of_bad_host (url : PyStr)
    (hh : UrlParser.isYoutubeHost (UrlParser.observedHost url) = false) :
    UrlParser.extract_video_id url = none := by
  by_cases hu : url = []
  · simp [UrlParser.extract_video_id, hu]
  · unfold UrlParser.extract_video_id
    rw [if_neg hu]
    simp only
    rw [show Py.lower (UrlLib.hostname (UrlLib.urlsplit (Py.strip url)).netloc) =
      UrlParser.observedHost url from rfl, hh]
    simp

theorem extract_bilibili_none_of_bad_host (url : PyStr)
    (hh : UrlParser.isBilibiliHost (UrlParser.observedHost url) = false) :
    UrlParser.extract_bilibili_video_id url = none := by
  by_cases hu : url = []
  · simp [UrlParser.extract_bilibili_video_id, hu]
  · unfold UrlParser.extract_bilibili_video_id
    rw [if_neg hu]
    simp only
    rw [show Py.lower (UrlLib.hostname (UrlLib.urlsplit (Py.strip url)).netloc) =
      UrlParser.observedHost url from rfl, hh]
    simp

theorem extract_apple_none_of_bad_host (url : PyStr)
    (hh : UrlParser.isApplePodcastsHost (UrlParser.observedHost url) = false) :
    UrlParser.extract_apple_podcasts_id url = none := by
  by_cases hu : url = []
  · simp [UrlParser.extract_apple_podcasts_id, hu]
  · unfold UrlParser.extract_apple_podcasts_id
    rw [if_neg hu]
    simp only
    rw [show Py.lower (UrlLib.hostname (UrlLib.urlsplit (Py.strip url)).netloc) =
      UrlParser.observedHost url from rfl, hh]
    simp

/-- C1: for every input whose (lower-cased) observed hostname is neither an
allowed platform domain nor a proper subdomain of one (`host == domain` or
`host` ends with `"." + domain`), the URL Classifier's `extract_video_id`,
`extract_bilibili_video_id`, `extract_apple_podcasts_id` and
`get_url_platform` all return `none`; moreover each per-platform host check
accepts EXACTLY the lowered hostnames that are an allow-listed domain or a
`"." + domain` suffix match — never plain substring containment. -/
theorem url_classifier_rejects_lookalike_hosts (url : PyStr) :
    ((∀ d ∈ UrlParser.YOUTUBE_DOMAINS,
        ¬(UrlParser.observedHost url = d ∨
          Py.endsWith ('.' :: d) (UrlParser.observedHost url) = true)) →
      UrlParser.extract_video_id url = none) ∧
    ((∀ d ∈ UrlParser.BILIBILI_DOMAINS,
        ¬(UrlParser.observedHost url = d ∨
          Py.endsWith ('.' :: d) (UrlParser.observedHost url) = true)) →
      UrlParser.extract_bilibili_video_id url = none) ∧
    ((∀ d ∈ UrlParser.APPLE_PODCASTS_DOMAINS,
        ¬(UrlParser.observedHost url = d ∨
          Py.endsWith ('.' :: d) (UrlParser.observedHost url) = true)) →
      UrlParser.extract_apple_podcasts_id url = none) ∧
    ((∀ d ∈ UrlParser.YOUTUBE_DOMAINS ++ UrlParser.BILIBILI_DOMAINS ++
        UrlParser.APPLE_PODCASTS_DOMAINS,
        ¬(UrlParser.observedHost url = d ∨
          Py.endsWith ('.' :: d) (UrlParser.observedHost url) = true)) →
      UrlParser.get_url_platform url = none) ∧
    (∀ hst : PyStr, UrlParser.isYoutubeHost hst = true ↔
      (hst ≠ [] ∧ ∃ d ∈ UrlParser.YOUTUBE_DOMAINS,
        Py.lower hst = d ∨ Py.endsWith ('.' :: d) (Py.lower hst) = true)) ∧
    (∀ hst : PyStr, UrlParser.isBilibiliHost hst = true ↔
      (hst ≠ [] ∧ ∃ d ∈ UrlParser.BILIBILI_DOMAINS,
        Py.lower hst = d ∨ Py.endsWith ('.' :: d) (Py.lower hst) = true)) ∧
    (∀ hst : PyStr, UrlParser.isApplePodcastsHost hst = true ↔
      (hst ≠ [] ∧ ∃ d ∈ UrlParser.APPLE_PODCASTS_DOMAINS,
        Py.lower hst = d ∨ Py.endsWith ('.' :: d) (Py.lower hst) = true)) := by
  have hyt : (∀ d ∈ UrlParser.YOUTUBE_DOMAINS,
      ¬(UrlParser.observedHost url = d ∨
        Py.endsWith ('.' :: d) (UrlParser.observedHost url) = true)) →
      UrlParser.extract_video_id url = none := by
    intro H
    apply extract_video_id_none_of_bad_host
    by_contra hne
    have htrue : UrlParser.isYoutubeHost (UrlParser.observedHost url) = true := by
      cases hx : UrlParser.isYoutubeHost (UrlParser.observedHost url)
      · exact absurd hx hne
      · rfl
    obtain ⟨-, d, hd, hcase⟩ := (isYoutubeHost_iff _).mp htrue
    rw [observedHost_lower] at hcase
    exact H d hd hcase
  have hbl : (∀ d ∈ UrlParser.BILIBILI_DOMAINS,
      ¬(UrlParser.observedHost url = d ∨
        Py.endsWith ('.' :: d) (UrlParser.observedHost url) = true)) →
      UrlParser.extract_bilibili_video_id url = none := by
    intro H
    apply extract_bilibili_none_of_bad_host
    by_contra hne
    have htrue : UrlParser.isBilibiliHost (UrlParser.observedHost url) = true := by
      cases hx : UrlParser.isBilibiliHost (UrlParser.observedHost url)
      · exact absurd hx hne
      · rfl
    obtain ⟨-, d, hd, hcase⟩ := (isBilibiliHost_iff _).mp htrue
    rw [observedHost_lower] at hcase
    exact H d hd hcase
  have hap : (∀ d ∈ UrlParser.APPLE_PODCASTS_DOMAINS,
      ¬(UrlParser.observedHost url = d ∨
        Py.endsWith ('.' :: d) (UrlParser.observedHost url) = true)) →
      UrlParser.extract_apple_podcasts_id url = none := by
    intro H
    apply extract_apple_none_of_bad_host
    by_contra hne
    have htrue : UrlParser.isApplePodcastsHost (UrlParser.observedHost url) = true := by
      cases hx : UrlParser.isApplePodcastsHost (UrlParser.observedHost url)
      · exact absurd hx hne
      · rfl
    obtain ⟨-, d, hd, hcase⟩ := (isApplePodcastsHost_iff _).mp htrue
    rw [observedHost_lower] at hcase
    exact H d hd hcase
  refine ⟨hyt, hbl, hap, ?_, isYoutubeHost_iff, isBilibiliHost_iff, isApplePodcastsHost_iff⟩
  intro H
  have H1 : ∀ d ∈ UrlParser.YOUTUBE_DOMAINS, ¬(UrlParser.observedHost url = d ∨
      Py.endsWith ('.' :: d) (UrlParser.observedHost url) = true) := by
    intro d hd
    exact H d (by simp [hd])
  have H2 : ∀ d ∈ UrlParser.BILIBILI_DOMAINS, ¬(UrlParser.observedHost url = d ∨
      Py.endsWith ('.' :: d) (UrlParser.observedHost url) = true) := by
    intro d hd
    exact H d (by simp [hd])
  have H3 : ∀ d ∈ UrlParser.APPLE_PODCASTS_DOMAINS, ¬(UrlParser.observedHost url = d ∨
      Py.endsWith ('.' :: d) (UrlParser.observedHost url) = true) := by
    intro d hd
    exact H d (by simp [hd])
  unfold UrlParser.get_url_platform
  simp [UrlParser.is_youtube_url, UrlParser.is_bilibili_url,
    UrlParser.is_apple_podcasts_url, hyt H1, hbl H2, hap H3]

/-- C1 witness: look-alike hostnames — the allowed name as a suffix of an
attacker domain, or only in the path — are all rejected. -/
theorem url_classifier_rejects_lookalike_hosts_witness :
    UrlParser.extract_video_id
      "https://youtube.com.evil.com/watch?v=dQw4w9WgXcQ".data = none ∧
    UrlParser.extract_bilibili_video_id
      "https://bilibili.com.evil.com/video/BV1GJ411x7h7".data = none ∧
    UrlParser.extract_apple_podcasts_id
      "https://podcasts.apple.com.evil.com/us/podcast/x/id12345".data = none ∧
    UrlParser.get_url_platform
      "https://evil.com/youtube.com/watch?v=dQw4w9WgXcQ".data = none :=
  ⟨(url_classifier_rejects_lookalike_hosts _).1 (by decide),
   (url_classifier_rejects_lookalike_hosts _).2.1 (by decide),
   (url_classifier_rejects_lookalike_hosts _).2.2.1 (by decide),
   (url_classifier_rejects_lookalike_hosts _).2.2.2.1 (by decide)⟩
